import Mathlib

/-!
Shallow embedding of the adns DNS resolution engine (Go sources:
handler.go, config.go, main.go, and the upstream health-watch revision).

Strings are modelled by Lean `String`; the Go `strings` helpers used by the
code (`Contains`, `Split` on a one-character separator, `TrimSuffix`) are
embedded as executable functions on the underlying character lists.
Machine integers: Go `uint32`/`uint16` TTL and preference fields are `Nat`
(no arithmetic near overflow occurs in the modelled code); Unix timestamps
(`int64`) are `Int`.
-/

/-- Embedding of Go `strings.Contains` matching: does `pat` occur at the
head of `l` as a contiguous run? -/
def startsSeq : List Char → List Char → Bool
  | [], _ => true
  | _ :: _, [] => false
  | p :: ps, c :: cs => p == c && startsSeq ps cs

/-- Does `pat` occur contiguously anywhere in `l`? (Go `strings.Contains`.) -/
def containsSeq (pat : List Char) : List Char → Bool
  | [] => pat.isEmpty
  | c :: t => startsSeq pat (c :: t) || containsSeq pat t

/-- Go `strings.Contains(s, sub)`. -/
def goContains (s sub : String) : Bool :=
  containsSeq sub.data s.data

/-- Go `strings.Split(s, sep)` for a one-character separator, on the
character list. `splitOnChar sep l` returns the runs between occurrences
of `sep`, always at least one piece. -/
def splitOnChar (sep : Char) : List Char → List (List Char)
  | [] => [[]]
  | c :: rest =>
    let r := splitOnChar sep rest
    if c == sep then [] :: r
    else
      match r with
      | [] => [[c]]
      | h :: t => (c :: h) :: t

/-- Go `strings.Split(r.Name, "*")`. -/
def goSplitStar (s : String) : List String :=
  (splitOnChar '*' s.data).map (fun l => ⟨l⟩)

/-- Go `strings.TrimSuffix(s, ".")`. -/
def goTrimSuffixDot (s : String) : String :=
  if s.endsWith "." then s.dropRight 1 else s

/-! ## Configuration data model (config.go) -/

/-- A configured zone record (Go struct `Record`; the Go field `Type` is
spelled `Type'` because `Type` is reserved in Lean). -/
structure Record where
  Name : String
  Type' : String
  Value : String
  TTL : Nat
  Preference : Nat
deriving DecidableEq

/-- A configured zone (Go struct `Domain`). -/
structure Domain where
  Name : String
  Records : List Record
deriving DecidableEq

/-- Go struct `Config` (the nested `Cache.TTL` field is flattened to
`CacheTTL`; it is unused by the engine). -/
structure Config where
  Servers : List String
  Domains : List Domain
  CacheTTL : Int
deriving DecidableEq

/-! ## DNS types (handler.go `typeMap` / `typeMapRev`)

Numeric type codes follow the miekg/dns constants:
A = 1, CNAME = 5, MX = 15, TXT = 16, AAAA = 28, HTTPS = 65. -/

/-- handler.go `typeMap`: record-type string to DNS type code. -/
def typeMap : String → Option Nat
  | "A" => some 1
  | "AAAA" => some 28
  | "TXT" => some 16
  | "CNAME" => some 5
  | "MX" => some 15
  | "HTTPS" => some 65
  | _ => none

/-- handler.go `typeMapRev`: DNS type code back to the record-type string
(the inverse map built in `init`). -/
def typeMapRev (t : Nat) : Option String :=
  if t = 1 then some "A"
  else if t = 28 then some "AAAA"
  else if t = 16 then some "TXT"
  else if t = 5 then some "CNAME"
  else if t = 15 then some "MX"
  else if t = 65 then some "HTTPS"
  else none

/-! ## Zone matcher (handler.go `match`) -/

/-- The name-matching step of handler.go `match` for one record
(lines 118-133): exact match of `r.Name + "." + domain.Name + "."`
against the query name, else the wildcard-suffix rule when `r.Name`
contains `"*"`. -/
def recordNameMatch (dName : String) (r : Record) (qn : String) : Bool :=
  let qName := r.Name ++ "." ++ dName ++ "."
  if qName = qn then true
  else if goContains r.Name "*" then
    let tmp := goSplitStar r.Name
    let rName := tmp.getD 1 ""
    let suffix := rName ++ "." ++ dName ++ "."
    goContains qn suffix
  else false

/-- handler.go `match` line 142: the `isSame` CNAME-fallback condition,
embedded literally:
`(Qtype != TypeA || Qtype != TypeAAAA || Qtype != TypeMX) && t == TypeCNAME`. -/
def isSame (qtype t : Nat) : Bool :=
  (!(qtype == 1) || !(qtype == 28) || !(qtype == 15)) && (t == 5)

/-- The inner record loop of handler.go `match` (lines 117-146). -/
def matchRecords (dName : String) (qtype : Nat) (qn : String) :
    List Record → Option Record
  | [] => none
  | r :: rest =>
    if recordNameMatch dName r qn then
      match typeMap r.Type' with
      | none => matchRecords dName qtype qn rest
      | some t =>
        if t = qtype then some r
        else if isSame qtype t then some r
        else matchRecords dName qtype qn rest
    else matchRecords dName qtype qn rest

/-- The outer domain loop of handler.go `match` (lines 109-147): a domain
is a candidate only if the query name contains the domain name and the
query type is in `typeMapRev`. -/
def matchDomains (qtype : Nat) (qn : String) : List Domain → Option Record
  | [] => none
  | d :: rest =>
    if !(goContains qn d.Name) then matchDomains qtype qn rest
    else if !(typeMapRev qtype).isSome then matchDomains qtype qn rest
    else
      match matchRecords d.Name qtype qn d.Records with
      | some r => some r
      | none => matchDomains qtype qn rest

/-- handler.go `match` (`match` is reserved in Lean). Returns the matched
record or `none` for the `"not matched"` error. -/
def matchQuestion (cfg : Config) (qn : String) (qtype : Nat) : Option Record :=
  matchDomains qtype qn cfg.Domains

/-! ## IP parsing (Go standard library `net.ParseIP`, at the interface
boundary of §6: the engine only consumes its success/failure and value). -/

/-- A parsed IP address: four IPv4 octets or eight 16-bit IPv6 groups. -/
inductive IPAddr where
  | v4 (a b c d : Nat)
  | v6 (groups : List Nat)
deriving DecidableEq

/-- One dotted-decimal IPv4 field: 1-3 decimal digits, value at most 255,
no leading zero (Go rejects leading zeros in `ParseIP`). -/
def parseV4Field (l : List Char) : Option Nat :=
  if l = [] then none
  else if l.length > 3 then none
  else if l.length > 1 && l.headD 'x' == '0' then none
  else if l.all Char.isDigit then
    let n := l.foldl (fun acc c => acc * 10 + (c.toNat - 48)) 0
    if n ≤ 255 then some n else none
  else none

/-- Go `parseIPv4`: exactly four dot-separated fields. -/
def parseIPv4 (l : List Char) : Option IPAddr :=
  match (splitOnChar '.' l).map parseV4Field with
  | [some a, some b, some c, some d] => some (.v4 a b c d)
  | _ => none

/-- One IPv6 group: 1-4 hexadecimal digits. -/
def parseV6Group (l : List Char) : Option Nat :=
  if l = [] then none
  else if l.length > 4 then none
  else if l.all (fun c => c.isDigit || ('a' ≤ c && c ≤ 'f') || ('A' ≤ c && c ≤ 'F')) then
    some (l.foldl (fun acc c =>
      acc * 16 + (if c.isDigit then c.toNat - 48
                  else if 'a' ≤ c then c.toNat - 87 else c.toNat - 55)) 0)
  else none

/-- Colon-separated IPv6 groups; the final group may be an embedded
dotted IPv4 address, contributing two 16-bit groups. -/
def parseV6Groups (parts : List (List Char)) : Option (List Nat) :=
  match parts with
  | [] => some []
  | [p] =>
    if p.contains '.' then
      match parseIPv4 p with
      | some (.v4 a b c d) => some [a * 256 + b, c * 256 + d]
      | _ => none
    else (parseV6Group p).map (fun g => [g])
  | p :: rest =>
    match parseV6Group p, parseV6Groups rest with
    | some g, some gs => some (g :: gs)
    | _, _ => none

/-- Split at the first `"::"`, if any. -/
def splitDoubleColon : List Char → Option (List Char × List Char)
  | ':' :: ':' :: rest => some ([], rest)
  | c :: rest => (splitDoubleColon rest).map (fun p => (c :: p.1, p.2))
  | [] => none

/-- Go `parseIPv6`: at most one `"::"` zero-compression; without it there
must be exactly eight groups, with it strictly fewer, padded with zeros. -/
def parseIPv6 (l : List Char) : Option IPAddr :=
  match splitDoubleColon l with
  | none =>
    match parseV6Groups (splitOnChar ':' l) with
    | some gs => if gs.length = 8 then some (.v6 gs) else none
    | none => none
  | some (left, right) =>
    if containsSeq [':', ':'] right then none
    else
      let lg := if left = [] then some [] else parseV6Groups (splitOnChar ':' left)
      let rg := if right = [] then some [] else parseV6Groups (splitOnChar ':' right)
      match lg, rg with
      | some gs1, some gs2 =>
        if gs1.length + gs2.length ≤ 7 then
          some (.v6 (gs1 ++ List.replicate (8 - gs1.length - gs2.length) 0 ++ gs2))
        else none
      | _, _ => none

/-- Go `net.ParseIP`: the first `'.'` or `':'` decides the format; a string
with neither parses to `nil` (modelled as `none`). -/
def goParseIP (s : String) : Option IPAddr :=
  match s.data.find? (fun c => c == '.' || c == ':') with
  | some '.' => parseIPv4 s.data
  | some ':' => parseIPv6 s.data
  | _ => none

/-! ## Resource records (miekg/dns values as constructed by handler.go) -/

/-- The shared miekg/dns `RR_Header` fields set by handler.go. -/
structure RR_Header where
  Name : String
  Rrtype : Nat
  Class : Nat
  Ttl : Nat
deriving DecidableEq

/-- The type-specific payload of the record kinds handler.go constructs;
`Other` stands for any record relayed from an upstream. -/
inductive RData where
  | A (ip : Option IPAddr)
  | AAAA (ip : Option IPAddr)
  | MX (Preference : Nat) (Mx : String)
  | CNAME (Target : String)
  | HTTPS (Alpn : List String)
  | Other (raw : String)
deriving DecidableEq

/-- A synthesized or relayed DNS resource record. -/
structure RR where
  Hdr : RR_Header
  rdata : RData
deriving DecidableEq

/-- The record-construction switch of handler.go `handleLocal`
(lines 161-197), as the Answer Synthesizer: what gets appended to
`msg.Answer` for one matched record. The switch is on `typeMap[r.Type]`;
TXT (16) has no case and falls to the logging default, producing nothing.
`net.ParseIP` failure is not checked: the A/AAAA record is emitted with
the nil (`none`) address. For HTTPS the header name is `"."` and the
`Ttl` field is left at its zero value. -/
def synthesize (qn : String) (r : Record) : List RR :=
  match typeMap r.Type' with
  | some 1 => [⟨⟨qn, 1, 1, r.TTL⟩, .A (goParseIP r.Value)⟩]
  | some 28 => [⟨⟨qn, 28, 1, r.TTL⟩, .AAAA (goParseIP r.Value)⟩]
  | some 15 => [⟨⟨qn, 15, 1, r.TTL⟩, .MX r.Preference r.Value⟩]
  | some 5 => [⟨⟨qn, 5, 1, r.TTL⟩, .CNAME (goTrimSuffixDot r.Value ++ ".")⟩]
  | some 65 => [⟨⟨".", 65, 1, 0⟩, .HTTPS (r.Value.splitOn ",")⟩]
  | _ => []

/-- handler.go `handleLocal` (lines 156-200): the local answers appended
for one question, and the boolean the closure returns. Every path in the
Go closure ends in `return false` — including the successful ones. -/
def handleLocal (cfg : Config) (qn : String) (qtype : Nat) : List RR × Bool :=
  match matchQuestion cfg qn qtype with
  | none => ([], false)
  | some r => (synthesize qn r, false)

/-! ## Answer cache (handler.go `cache`, `cacheItem`, `clearCache`) -/

/-- handler.go `cacheItem`; `value` is always the `[]dns.RR` answer slice. -/
structure cacheItem where
  expire : Int
  value : List RR
deriving DecidableEq

/-- The `sync.Map` cache, modelled as an association list with at most
one entry per key (`Store` replaces). -/
abbrev CacheState := List (String × cacheItem)

/-- `cache.Load`. -/
def cacheLoad (c : CacheState) (k : String) : Option cacheItem :=
  (List.find? (fun e => e.1 == k) c).map (fun e => e.2)

/-- `cache.Store`: replace any entry for the key. -/
def cacheStore (c : CacheState) (k : String) (v : cacheItem) : CacheState :=
  (k, v) :: List.filter (fun e => !(e.1 == k)) c

/-- handler.go `clearCache` (lines 21-31): one eviction sweep at Unix time
`now`, deleting every entry with `expire < now`. -/
def clearCache (now : Int) (c : CacheState) : CacheState :=
  List.filter (fun e => !(e.2.expire < now)) c

/-- handler.go line 74: `fmt.Sprintf("%s-%d", domain, qtype)`. -/
def cacheKey (domain : String) (qtype : Nat) : String :=
  domain ++ "-" ++ toString qtype

/-! ## Forwarder (handler.go `resolve`)

The network exchange with one upstream is modelled by a function from the
server address to an outcome: a transport error (`err`) or a reply with
its answer section (`ok`). -/

/-- The outcome of `c.Exchange(m, server)` for one upstream. -/
inductive ExchangeOutcome where
  | err
  | ok (answer : List RR)
deriving DecidableEq

/-- The upstream loop of handler.go `resolve` (lines 85-103): try each
configured server in order; on a transport error continue to the next;
on a successful exchange, store the answer (keyed, with the first
record's TTL) when it is non-empty, and return it — empty or not. -/
def resolveLoop (exchange : String → ExchangeOutcome) (now : Int) (key : String)
    (c : CacheState) : List String → List RR × CacheState
  | [] => ([], c)
  | server :: rest =>
    match exchange server with
    | .err => resolveLoop exchange now key c rest
    | .ok [] => ([], c)
    | .ok (a :: ans) =>
      (a :: ans, cacheStore c key ⟨now + (a.Hdr.Ttl : Int), a :: ans⟩)

/-- handler.go `resolve` (lines 73-105): answer from cache on a hit
(without looking at `expire`), otherwise run the upstream loop over
`cfg.Servers`. Returns the answers and the cache afterwards. -/
def resolve (cfg : Config) (exchange : String → ExchangeOutcome)
    (c : CacheState) (domain : String) (qtype : Nat) (now : Int) :
    List RR × CacheState :=
  let key := cacheKey domain qtype
  match cacheLoad c key with
  | some item => (item.value, c)
  | none => resolveLoop exchange now key c cfg.Servers

/-- The body of the per-question loop of handler.go `ServeDNS`
(lines 202-210): run `handleLocal`; only when it reports `true` skip
forwarding; otherwise also call `resolve` and append its answers after
the local ones. Returns this question's contribution to `msg.Answer`
and the cache afterwards. -/
def serveQuestion (cfg : Config) (exchange : String → ExchangeOutcome)
    (c : CacheState) (now : Int) (qn : String) (qtype : Nat) :
    List RR × CacheState :=
  let loc := handleLocal cfg qn qtype
  if loc.2 then (loc.1, c)
  else
    let fwd := resolve cfg exchange c qn qtype now
    (loc.1 ++ fwd.1, fwd.2)

/-! ## Upstream pool and health monitor (part_002 `upstream`, `watch`) -/

/-- part_002 `upstream.IsDead`: `s.failed > 20`. -/
def upstreamIsDead (failed : Nat) : Bool := failed > 20

/-- One iteration of the probe loop in part_002 `watch` for one endpoint:
`failed` is its consecutive-failure counter, `present` whether the
endpoint is currently in the serving map `h.upstream`, and `probeOk`
whether the probe exchange produced a non-empty answer
(`in != nil && len(in.Answer) > 0`). Dead endpoints (`failed > 20`) are
skipped unprobed. A successful probe resets the counter and stores the
endpoint; a failed probe increments it and deletes the endpoint once the
counter reaches 5. Returns the new counter and membership. -/
def watchStep (failed : Nat) (present : Bool) (probeOk : Bool) : Nat × Bool :=
  if upstreamIsDead failed then (failed, present)
  else if probeOk then (0, true)
  else
    let f := failed + 1
    if present && decide (f ≥ 5) then (f, false) else (f, present)

/-! ## Reachable cache states

The cache is written only by `resolve` (conditional store of a non-empty
answer) and by `clearCache`, starting from the empty map. -/

/-- Cache states reachable through the operations the program performs. -/
inductive CacheReach : CacheState → Prop where
  | init : CacheReach []
  | step (cfg : Config) (exchange : String → ExchangeOutcome) (domain : String)
      (qtype : Nat) (now : Int) {c : CacheState} :
      CacheReach c → CacheReach (resolve cfg exchange c domain qtype now).2
  | sweep (now : Int) {c : CacheState} :
      CacheReach c → CacheReach (clearCache now c)

/-- A record that handler.go `match` passes over without returning, for a
given domain name, query type and query name: it fails the name match, or
its configured type string is unsupported, or its type code is neither the
queried type nor CNAME (the only two codes the loop returns on). -/
def recordSkips (dName : String) (qtype : Nat) (qn : String) (r : Record) : Prop :=
  recordNameMatch dName r qn = false ∨ typeMap r.Type' = none ∨
    (typeMap r.Type' ≠ some qtype ∧ typeMap r.Type' ≠ some 5)

/-! ## Concrete fixtures used in counterexamples and witnesses -/

/-- An answer record as relayed from an upstream (TTL 60). -/
def rrUp : RR := ⟨⟨"up.", 1, 1, 60⟩, .A none⟩

/-- The spec §8 concrete scenario record `{www A 1.2.3.4 ttl 300}`. -/
def recWWW : Record := ⟨"www", "A", "1.2.3.4", 300, 0⟩

/-- Config with domain `example.com` holding `recWWW`, two upstreams. -/
def cfgWWW : Config := ⟨["s1", "s2"], [⟨"example.com", [recWWW]⟩], 0⟩

/-- An exact-name TXT record. -/
def recTXT : Record := ⟨"www", "TXT", "hello", 300, 0⟩

/-- Config with domain `example.com` holding `recTXT`. -/
def cfgTXT : Config := ⟨["s1"], [⟨"example.com", [recTXT]⟩], 0⟩

/-- An A record whose value is not a parsable IP address. -/
def recBadIP : Record := ⟨"www", "A", "notanip", 300, 0⟩

/-- Config with domain `example.com` holding `recBadIP`. -/
def cfgBadIP : Config := ⟨["s1"], [⟨"example.com", [recBadIP]⟩], 0⟩

/-- The spec §8 wildcard record `{* A 5.6.7.8 ttl 60}`. -/
def recStar : Record := ⟨"*", "A", "5.6.7.8", 60, 0⟩

/-- Upstream behavior: the first server answers successfully but with an
empty answer section; the second would answer `rrUp`. -/
def exEmptyThenAnswer : String → ExchangeOutcome :=
  fun s => if s = "s1" then .ok [] else .ok [rrUp]

/-- Upstream behavior: every server answers `[rrUp]`. -/
def exAnswer : String → ExchangeOutcome := fun _ => .ok [rrUp]

/-- Upstream behavior: the first server fails with a transport error; the
second answers `[rrUp]`. -/
def exErrThenAnswer : String → ExchangeOutcome :=
  fun s => if s = "s1" then .err else .ok [rrUp]

/-! ## Helper lemmas: Go string operations -/

theorem startsSeq_iff (p l : List Char) : startsSeq p l = true ↔ ∃ r, l = p ++ r := by
  induction p generalizing l with
  | nil => simp [startsSeq]
  | cons x ps ih =>
    cases l with
    | nil => simp [startsSeq]
    | cons c cs =>
      simp only [startsSeq, Bool.and_eq_true, beq_iff_eq, ih, List.cons_append]
      constructor
      · rintro ⟨rfl, r, rfl⟩
        exact ⟨r, rfl⟩
      · rintro ⟨r, h⟩
        injection h with h1 h2
        exact ⟨h1.symm, r, h2⟩

theorem containsSeq_iff (p l : List Char) :
    containsSeq p l = true ↔ ∃ s t, l = s ++ p ++ t := by
  induction l with
  | nil =>
    simp only [containsSeq, List.isEmpty_iff]
    constructor
    · rintro rfl
      exact ⟨[], [], rfl⟩
    · rintro ⟨s, t, h⟩
      rcases List.append_eq_nil.mp (List.append_eq_nil.mp h.symm).1 with ⟨_, h2⟩
      exact h2
  | cons c t ih =>
    simp only [containsSeq, Bool.or_eq_true, ih, startsSeq_iff]
    constructor
    · rintro (⟨r, hr⟩ | ⟨s, u, rfl⟩)
      · exact ⟨[], r, by simpa using hr⟩
      · exact ⟨c :: s, u, rfl⟩
    · rintro ⟨s, u, h⟩
      cases s with
      | nil =>
        exact Or.inl ⟨u, by simpa using h⟩
      | cons a s' =>
        rw [List.cons_append, List.cons_append] at h
        injection h with h1 h2
        exact Or.inr ⟨s', u, h2⟩

theorem splitOnChar_ne_nil (sep : Char) (l : List Char) : splitOnChar sep l ≠ [] := by
  induction l with
  | nil => simp [splitOnChar]
  | cons c rest ih =>
    simp only [splitOnChar]
    split
    · simp
    · cases h : splitOnChar sep rest with
      | nil => simp
      | cons a b => simp

theorem splitOnChar_eq_single (sep : Char) (l p : List Char)
    (h : splitOnChar sep l = [p]) : l = p := by
  induction l generalizing p with
  | nil =>
    simp only [splitOnChar] at h
    injection h
  | cons c rest ih =>
    simp only [splitOnChar] at h
    by_cases hc : c == sep
    · rw [if_pos hc] at h
      injection h with h1 h2
      exact absurd h2 (splitOnChar_ne_nil sep rest)
    · rw [if_neg hc] at h
      rcases hr : splitOnChar sep rest with _ | ⟨a, b⟩
      · exact absurd hr (splitOnChar_ne_nil sep rest)
      · rw [hr] at h
        injection h with h1 h2
        subst h2
        rw [← h1, ih a (by rw [hr])]

theorem splitOnChar_eq_pair (sep : Char) (l p q : List Char)
    (h : splitOnChar sep l = [p, q]) : l = p ++ sep :: q := by
  induction l generalizing p with
  | nil =>
    simp only [splitOnChar] at h
    injection h with h1 h2
    exact absurd h2.symm (by simp)
  | cons c rest ih =>
    simp only [splitOnChar] at h
    by_cases hc : c == sep
    · rw [if_pos hc] at h
      injection h with h1 h2
      subst h1
      have := splitOnChar_eq_single sep rest q (by rw [h2])
      subst this
      simp [beq_iff_eq.mp hc]
    · rw [if_neg hc] at h
      rcases hr : splitOnChar sep rest with _ | ⟨a, b⟩
      · exact absurd hr (splitOnChar_ne_nil sep rest)
      · rw [hr] at h
        injection h with h1 h2
        subst h1
        have : rest = a ++ sep :: q := by
          apply ih
          rw [hr, h2]
        rw [this, List.cons_append]

/-! ## Helper lemmas: matcher and cache -/

/-- The first factor of `isSame` is a tautology (a query type cannot equal
1, 28 and 15 at once), so the CNAME fallback fires for every query type. -/
theorem isSame_eq_cname (qtype t : Nat) : isSame qtype t = (t == 5) := by
  unfold isSame
  rcases eq_or_ne qtype 1 with rfl | h
  · simp
  · simp [h]

/-- Loading a key whose entry heads the list returns that entry. -/
theorem cacheLoad_cons_self (rest : CacheState) (k : String) (v : cacheItem) :
    cacheLoad ((k, v) :: rest) k = some v := by
  simp [cacheLoad, List.find?]

/-- Loading the key just stored returns the stored item. -/
theorem cacheLoad_cacheStore (c : CacheState) (k : String) (v : cacheItem) :
    cacheLoad (cacheStore c k v) k = some v :=
  cacheLoad_cons_self _ k v

/-- A list whose entries all have other keys loads nothing for `k`. -/
theorem cacheLoad_eq_none_of_no_key (c : CacheState) (k : String)
    (h : ∀ e ∈ c, (e.1 == k) = false) : cacheLoad c k = none := by
  unfold cacheLoad
  rw [List.find?_eq_none.mpr]
  · rfl
  · intro e he
    simp [h e he]

/-- Claim C6: cache round trip. After `cacheStore` writes an item expiring
at `T + t`, `cacheLoad` returns it unchanged (it never checks expiry);
sweeps at a time not after `T + t` keep it; the first sweep strictly after
`T + t` deletes it, so later loads miss. -/
theorem C6_cache_round_trip (c : CacheState) (k : String) (v : List RR)
    (T : Int) (t : Nat) (s : Int) :
    cacheLoad (cacheStore c k ⟨T + t, v⟩) k = some ⟨T + t, v⟩ ∧
    (s ≤ T + t → cacheLoad (clearCache s (cacheStore c k ⟨T + t, v⟩)) k =
      some ⟨T + t, v⟩) ∧
    (T + t < s → cacheLoad (clearCache s (cacheStore c k ⟨T + t, v⟩)) k = none) := by
  refine ⟨cacheLoad_cacheStore c k _, ?_, ?_⟩
  · intro hs
    have hkeep : ¬((⟨T + t, v⟩ : cacheItem).expire < s) := by simpa using not_lt.mpr hs
    simp only [clearCache, cacheStore, List.filter_cons]
    rw [if_pos (by simpa using hkeep)]
    exact cacheLoad_cons_self _ k _
  · intro hs
    have hdrop : ((⟨T + t, v⟩ : cacheItem).expire < s) := hs
    simp only [clearCache, cacheStore, List.filter_cons]
    rw [if_neg (by simpa using hdrop)]
    apply cacheLoad_eq_none_of_no_key
    intro e he
    have he' := List.mem_filter.mp (List.mem_filter.mp he).1
    simpa using he'.2

/-- Witness for C6 at a concrete store (T = 100, t = 50): a sweep at 120
keeps the entry, a sweep at 200 evicts it. -/
theorem C6_cache_round_trip_witness :
    cacheLoad (clearCache 120 (cacheStore [] "k" ⟨(100 : Int) + (50 : Nat), [rrUp]⟩)) "k" =
      some ⟨(100 : Int) + (50 : Nat), [rrUp]⟩ ∧
    cacheLoad (clearCache 200 (cacheStore [] "k" ⟨(100 : Int) + (50 : Nat), [rrUp]⟩)) "k" =
      none :=
  ⟨(C6_cache_round_trip [] "k" [rrUp] 100 50 120).2.1 (by decide),
   (C6_cache_round_trip [] "k" [rrUp] 100 50 200).2.2 (by decide)⟩

/-- Claim C7: an endpoint in the serving set leaves it in a probe step
only when its incremented consecutive-failure counter reaches the removal
threshold 5 (and only on a failed probe); and any probed endpoint whose
probe succeeds ends with counter 0 and in the serving set, whether or not
it was demoted before. -/
theorem C7_health_demotion_revival (failed : Nat) (present probeOk : Bool) :
    (present = true → (watchStep failed present probeOk).2 = false →
      5 ≤ failed + 1 ∧ probeOk = false) ∧
    (failed ≤ 20 → probeOk = true → watchStep failed present probeOk = (0, true)) := by
  constructor
  · intro hp h
    subst hp
    unfold watchStep upstreamIsDead at h
    by_cases hd : failed > 20
    · simp [hd] at h
    · cases probeOk with
      | true => simp [hd] at h
      | false =>
        refine ⟨?_, rfl⟩
        by_cases h5 : 5 ≤ failed + 1
        · exact h5
        · simp [hd, h5] at h
  · intro h20 hp
    subst hp
    unfold watchStep upstreamIsDead
    simp [Nat.not_lt.mpr h20]

/-- Witness for C7: at counter 4 a failed probe demotes (4 + 1 = 5), and
at counter 3 a successful probe of a demoted endpoint restores it with
counter 0. -/
theorem C7_health_witness :
    (5 ≤ 4 + 1 ∧ false = false) ∧ watchStep 3 false true = (0, true) :=
  ⟨(C7_health_demotion_revival 4 true false).1 rfl (by decide),
   (C7_health_demotion_revival 3 false true).2 (by decide) rfl⟩

/-! ## Helper lemmas: forwarder -/

/-- Every run of the upstream loop either leaves the cache untouched or
stores at its key, under the non-empty answer just returned, an entry
expiring at `now` plus the first answer record's TTL. -/
theorem resolveLoop_cache_cases (exchange : String → ExchangeOutcome) (now : Int)
    (key : String) (c : CacheState) (servers : List String) :
    (resolveLoop exchange now key c servers).2 = c ∨
    ∃ a rest, (resolveLoop exchange now key c servers).1 = a :: rest ∧
      (resolveLoop exchange now key c servers).2 =
        cacheStore c key ⟨now + (a.Hdr.Ttl : Int), a :: rest⟩ := by
  induction servers with
  | nil => exact Or.inl rfl
  | cons srv rest ih =>
    rcases hx : exchange srv with _ | ans
    · simpa only [resolveLoop, hx] using ih
    · cases ans with
      | nil => exact Or.inl (by simp [resolveLoop, hx])
      | cons a ans' =>
        exact Or.inr ⟨a, ans', by simp [resolveLoop, hx], by simp [resolveLoop, hx]⟩

/-- Transport errors from a prefix of the server list are skipped. -/
theorem resolveLoop_skip_errors (exchange : String → ExchangeOutcome) (now : Int)
    (key : String) (c : CacheState) (pre servers : List String)
    (hpre : ∀ x ∈ pre, exchange x = .err) :
    resolveLoop exchange now key c (pre ++ servers) =
      resolveLoop exchange now key c servers := by
  induction pre with
  | nil => rfl
  | cons p ps ih =>
    rw [List.cons_append]
    simp only [resolveLoop, hpre p (by simp)]
    exact ih (fun x hx => hpre x (by simp [hx]))

/-- `resolve` unfolded: consult the cache, then run the upstream loop. -/
theorem resolve_eq (cfg : Config) (exchange : String → ExchangeOutcome)
    (c : CacheState) (domain : String) (qtype : Nat) (now : Int) :
    resolve cfg exchange c domain qtype now =
      match cacheLoad c (cacheKey domain qtype) with
      | some item => (item.value, c)
      | none => resolveLoop exchange now (cacheKey domain qtype) c cfg.Servers := rfl

/-- Claim C8: whenever `resolve` stores a cache entry, the entry's expiry
is the current Unix time plus the TTL of the first record of the stored
answer sequence (and otherwise the cache is unchanged). -/
theorem C8_store_expiry_first_ttl (cfg : Config) (exchange : String → ExchangeOutcome)
    (c : CacheState) (domain : String) (qtype : Nat) (now : Int) :
    (resolve cfg exchange c domain qtype now).2 = c ∨
    ∃ a rest, (resolve cfg exchange c domain qtype now).1 = a :: rest ∧
      (resolve cfg exchange c domain qtype now).2 =
        cacheStore c (cacheKey domain qtype) ⟨now + (a.Hdr.Ttl : Int), a :: rest⟩ := by
  rw [resolve_eq]
  cases h : cacheLoad c (cacheKey domain qtype) with
  | some item => exact Or.inl rfl
  | none => exact resolveLoop_cache_cases exchange now (cacheKey domain qtype) c cfg.Servers

/-- Claim C2 counterexample: with the first upstream answering success-but-
empty and the second holding a real answer, handler.go `resolve` returns
the empty answer of the first upstream, caches nothing, and never reaches
the second upstream — an empty answer does not trigger failover. -/
theorem C2_empty_answer_not_retried :
    resolve cfgWWW exEmptyThenAnswer [] "q." 1 0 = ([], []) ∧
    (resolve cfgWWW exEmptyThenAnswer [] "q." 1 0).1 ≠ [rrUp] := by
  constructor
  · decide
  · decide

/-- Claim C2 (amended): on a cache miss, upstreams failing with transport
errors are skipped in configuration order, and the first upstream whose
exchange succeeds with at least one answer record has its answer returned
and stored in the cache. -/
theorem C2_failover_after_errors (pre rest : List String) (srv : String)
    (ds : List Domain) (ct : Int) (exchange : String → ExchangeOutcome)
    (c : CacheState) (domain : String) (qtype : Nat) (now : Int)
    (a : RR) (ans : List RR)
    (hpre : ∀ x ∈ pre, exchange x = .err)
    (hsrv : exchange srv = .ok (a :: ans))
    (hmiss : cacheLoad c (cacheKey domain qtype) = none) :
    resolve ⟨pre ++ srv :: rest, ds, ct⟩ exchange c domain qtype now =
      (a :: ans,
       cacheStore c (cacheKey domain qtype) ⟨now + (a.Hdr.Ttl : Int), a :: ans⟩) := by
  rw [resolve_eq, hmiss]
  show resolveLoop exchange now (cacheKey domain qtype) c (pre ++ srv :: rest) = _
  rw [resolveLoop_skip_errors exchange now (cacheKey domain qtype) c pre (srv :: rest) hpre]
  simp [resolveLoop, hsrv]

/-- Witness for C2 (amended): first upstream errors, second answers
`[rrUp]`; the answer and cache entry come from the second upstream. -/
theorem C2_failover_witness :
    resolve ⟨["s1"] ++ "s2" :: [], [], 0⟩ exErrThenAnswer [] "q." 1 0 =
      ([rrUp], cacheStore [] (cacheKey "q." 1) ⟨0 + (rrUp.Hdr.Ttl : Int), [rrUp]⟩) :=
  C2_failover_after_errors ["s1"] [] "s2" [] 0 exErrThenAnswer [] "q." 1 0 rrUp []
    (by decide) (by decide) (by decide)

/-- Claim C1 divergence, evaluated at the spec §8 scenario: `handleLocal`
matches `www.example.com. A` and synthesizes the local answer, yet still
returns `false`, so `ServeDNS` also invokes `resolve` and appends the
forwarded answers after the local one — the reply's answer set for the
question is not the synthesizer's output alone. -/
theorem C1_local_match_still_forwards :
    handleLocal cfgWWW "www.example.com." 1 =
      ([⟨⟨"www.example.com.", 1, 1, 300⟩, .A (some (.v4 1 2 3 4))⟩], false) ∧
    (serveQuestion cfgWWW exAnswer [] 0 "www.example.com." 1).1 =
      [⟨⟨"www.example.com.", 1, 1, 300⟩, .A (some (.v4 1 2 3 4))⟩, rrUp] ∧
    (serveQuestion cfgWWW exAnswer [] 0 "www.example.com." 1).1 ≠
      [⟨⟨"www.example.com.", 1, 1, 300⟩, .A (some (.v4 1 2 3 4))⟩] := by
  refine ⟨by decide, by decide, by decide⟩

/-- Claim C9 counterexample: the record value `"notanip"` is not a
parsable IP, yet `handleLocal` answers the question with one A record
whose address is the nil parse result — not with no records. -/
theorem C9_unparsable_ip_still_emitted :
    goParseIP "notanip" = none ∧
    (handleLocal cfgBadIP "www.example.com." 1).1 =
      [⟨⟨"www.example.com.", 1, 1, 300⟩, .A none⟩] ∧
    (handleLocal cfgBadIP "www.example.com." 1).1 ≠ [] := by
  refine ⟨by decide, by decide, by decide⟩

/-- Claim C9 (amended): for a matched A or AAAA record whose value does
not parse as an IP address, the synthesizer still emits exactly one
address record — header name the query name, TTL the record's TTL — with
the nil (`none`) address; no error condition exists and nothing is
dropped. -/
theorem C9_unparsable_ip_record (qn : String) (r : Record)
    (hty : r.Type' = "A" ∨ r.Type' = "AAAA")
    (hip : goParseIP r.Value = none) :
    synthesize qn r = [⟨⟨qn, 1, 1, r.TTL⟩, .A none⟩] ∨
    synthesize qn r = [⟨⟨qn, 28, 1, r.TTL⟩, .AAAA none⟩] := by
  rcases hty with h | h
  · exact Or.inl (by simp [synthesize, h, typeMap, hip])
  · exact Or.inr (by simp [synthesize, h, typeMap, hip])

/-- Witness for C9 (amended) at `recBadIP`. -/
theorem C9_unparsable_ip_witness :
    synthesize "www.example.com." recBadIP =
      [⟨⟨"www.example.com.", 1, 1, recBadIP.TTL⟩, .A none⟩] ∨
    synthesize "www.example.com." recBadIP =
      [⟨⟨"www.example.com.", 28, 1, recBadIP.TTL⟩, .AAAA none⟩] :=
  C9_unparsable_ip_record "www.example.com." recBadIP (Or.inl (by decide)) (by decide)

/-! ## Helper lemmas: reachable cache states -/

/-- Every entry of a reachable cache state has a non-empty answer list. -/
theorem cacheReach_entries_nonempty {c : CacheState} (h : CacheReach c) :
    ∀ e ∈ c, e.2.value ≠ [] := by
  induction h with
  | init => simp
  | @step cfg exchange domain qtype now c h ih =>
    rw [resolve_eq]
    cases hc : cacheLoad c (cacheKey domain qtype) with
    | some item => exact ih
    | none =>
      rcases resolveLoop_cache_cases exchange now (cacheKey domain qtype) c cfg.Servers
        with hsame | ⟨a, rest, h1, h2⟩
      · rw [hsame]
        exact ih
      · rw [h2]
        intro e he
        rcases List.mem_cons.mp he with rfl | htail
        · simp
        · exact ih e (List.mem_filter.mp htail).1
  | sweep now h ih =>
    intro e he
    exact ih e (List.mem_filter.mp he).1

/-- Claim C10: in every reachable cache state, a hit yields a non-empty
answer sequence — `resolve` only ever stores non-empty answer lists. -/
theorem C10_cache_entries_nonempty {c : CacheState} {k : String} {item : cacheItem}
    (h : CacheReach c) (hl : cacheLoad c k = some item) : item.value ≠ [] := by
  unfold cacheLoad at hl
  rcases Option.map_eq_some'.mp hl with ⟨e, hfind, hval⟩
  rw [← hval]
  exact cacheReach_entries_nonempty h e (List.mem_of_find?_eq_some hfind)

/-- Witness for C10 at a concrete reachable state: one forwarded
resolution from the empty cache. -/
theorem C10_cache_entries_witness :
    (⟨(0 : Int) + (rrUp.Hdr.Ttl : Int), [rrUp]⟩ : cacheItem).value ≠ [] :=
  C10_cache_entries_nonempty
    (CacheReach.step ⟨["s1"], [], 0⟩ exAnswer "q." 1 0 CacheReach.init)
    (by decide :
      cacheLoad (resolve ⟨["s1"], [], 0⟩ exAnswer [] "q." 1 0).2 (cacheKey "q." 1) =
        some ⟨(0 : Int) + (rrUp.Hdr.Ttl : Int), [rrUp]⟩)

/-! ## Helper lemmas: zone matcher -/

/-- Records satisfying `recordSkips` are passed over by the record loop. -/
theorem matchRecords_skip (dName : String) (qtype : Nat) (qn : String)
    (pre rs : List Record)
    (h : ∀ r' ∈ pre, recordSkips dName qtype qn r') :
    matchRecords dName qtype qn (pre ++ rs) = matchRecords dName qtype qn rs := by
  induction pre with
  | nil => rfl
  | cons r' ps ih =>
    have hrest : ∀ x ∈ ps, recordSkips dName qtype qn x :=
      fun x hx => h x (by simp [hx])
    rw [List.cons_append]
    rcases h r' (by simp) with hnm | hty | ⟨h1, h2⟩
    · simp only [matchRecords, hnm]
      simpa using ih hrest
    · cases hnm : recordNameMatch dName r' qn with
      | false =>
        simp only [matchRecords, hnm]
        simpa using ih hrest
      | true =>
        simp only [matchRecords, hnm, hty]
        simpa using ih hrest
    · rcases hso : typeMap r'.Type' with _ | t
      · cases hnm : recordNameMatch dName r' qn with
        | false =>
          simp only [matchRecords, hnm]
          simpa using ih hrest
        | true =>
          simp only [matchRecords, hnm, hso]
          simpa using ih hrest
      · have ht1 : ¬(t = qtype) := fun e => h1 (by rw [hso, e])
        have ht2 : (t == 5) = false := by
          have : ¬(t = 5) := fun e => h2 (by rw [hso, e])
          simpa using this
        cases hnm : recordNameMatch dName r' qn with
        | false =>
          simp only [matchRecords, hnm]
          simpa using ih hrest
        | true =>
          simp only [matchRecords, hnm, hso, if_neg ht1, isSame_eq_cname, ht2]
          simpa using ih hrest

/-- The domain loop on a single candidate domain returns what its record
loop returns, when that is a match. -/
theorem matchQuestion_single (dName qn : String) (servers : List String)
    (ct : Int) (recs : List Record) (qtype : Nat) (r : Record)
    (hdom : goContains qn dName = true)
    (hsup : (typeMapRev qtype).isSome = true)
    (hrec : matchRecords dName qtype qn recs = some r) :
    matchQuestion ⟨servers, [⟨dName, recs⟩], ct⟩ qn qtype = some r := by
  unfold matchQuestion
  show matchDomains qtype qn [⟨dName, recs⟩] = some r
  simp [matchDomains, hdom, hsup, hrec]

/-- A head record that name-matches with the queried type is returned. -/
theorem matchRecords_head_exact (dName : String) (qtype : Nat) (qn : String)
    (r : Record) (post : List Record)
    (hnm : recordNameMatch dName r qn = true)
    (hq : typeMap r.Type' = some qtype) :
    matchRecords dName qtype qn (r :: post) = some r := by
  simp [matchRecords, hnm, hq]

/-- A head CNAME record that name-matches is returned for any query type:
either the type matches exactly, or the `isSame` fallback (whose first
factor is a tautology) fires. -/
theorem matchRecords_head_cname (dName : String) (qtype : Nat) (qn : String)
    (rc : Record) (post : List Record)
    (hnm : recordNameMatch dName rc qn = true)
    (hc : rc.Type' = "CNAME") :
    matchRecords dName qtype qn (rc :: post) = some rc := by
  have ht : typeMap rc.Type' = some 5 := by rw [hc]; rfl
  by_cases h5 : (5 : Nat) = qtype
  · simp [matchRecords, hnm, ht, h5]
  · simp [matchRecords, hnm, ht, h5, isSame_eq_cname]

/-- Claim C4: if a CNAME record name-matches the query and every earlier
record in iteration order is skipped (none is an exact-type or CNAME
name-match), the zone matcher returns that CNAME record as a fallback for
every supported query type — the `isSame` guard is true whenever the
record's type is CNAME, regardless of the requested type. -/
theorem C4_cname_fallback (dName qn : String) (servers : List String) (ct : Int)
    (pre post : List Record) (rc : Record) (qtype : Nat)
    (hsup : (typeMapRev qtype).isSome = true)
    (hdom : goContains qn dName = true)
    (hc : rc.Type' = "CNAME")
    (hnm : recordNameMatch dName rc qn = true)
    (hpre : ∀ r' ∈ pre, recordSkips dName qtype qn r') :
    matchQuestion ⟨servers, [⟨dName, pre ++ rc :: post⟩], ct⟩ qn qtype = some rc := by
  apply matchQuestion_single dName qn servers ct _ qtype rc hdom hsup
  rw [matchRecords_skip dName qtype qn pre (rc :: post) hpre]
  exact matchRecords_head_cname dName qtype qn rc post hnm hc

/-- Witness for C4: a CNAME record for `www.example.com.` behind a
non-matching A record answers a TXT (type 16) query. -/
theorem C4_cname_fallback_witness :
    matchQuestion ⟨["s1"], [⟨"example.com",
        [⟨"mail", "A", "9.9.9.9", 60, 0⟩] ++ ⟨"www", "CNAME", "target.example.org", 120, 0⟩ :: []⟩], 0⟩
      "www.example.com." 16 = some ⟨"www", "CNAME", "target.example.org", 120, 0⟩ :=
  C4_cname_fallback "example.com" "www.example.com." ["s1"] 0
    [⟨"mail", "A", "9.9.9.9", 60, 0⟩] [] ⟨"www", "CNAME", "target.example.org", 120, 0⟩ 16
    (by decide) (by decide) (by decide) (by decide)
    (by intro r' hr'
        simp only [List.mem_singleton] at hr'
        subst hr'
        exact Or.inl (by decide))

/-- The query name built from a record and domain name contains the domain
name as a substring (the domain-candidacy check of `match`). -/
theorem goContains_mid (a b : String) : goContains (a ++ "." ++ b ++ ".") b = true := by
  unfold goContains
  rw [containsSeq_iff]
  refine ⟨a.data ++ ['.'], ['.'], ?_⟩
  have hdot : ("." : String).data = ['.'] := rfl
  simp [String.data_append, hdot, List.append_assoc]

/-- A record name-matches the exactly assembled query name
`r.Name + "." + dName + "."`. -/
theorem recordNameMatch_exact (dName : String) (r : Record) :
    recordNameMatch dName r (r.Name ++ "." ++ dName ++ ".") = true := by
  simp [recordNameMatch]

/-- Claim C5 counterexample: the exact-name, exact-type TXT record is
found by the zone matcher, yet the question is answered with no records
at all — `handleLocal`'s switch has no TXT case — so the answer is not
the record's synthesized answer carrying the configured TTL. -/
theorem C5_txt_no_answer :
    matchQuestion cfgTXT "www.example.com." 16 = some recTXT ∧
    handleLocal cfgTXT "www.example.com." 16 = ([], false) := by
  refine ⟨by decide, by decide⟩

/-- Claim C5 (amended): for a configured exact-name, exact-type record of
type A, AAAA, CNAME or MX, not shadowed by an earlier matching record,
the local answer is `synthesize`'s output: exactly one resource record
whose header carries the query name, the queried type and the configured
TTL. -/
theorem C5_exact_match_synthesis (dName qn : String) (servers : List String)
    (ct : Int) (pre post : List Record) (r : Record) (qtype : Nat)
    (hty : r.Type' = "A" ∨ r.Type' = "AAAA" ∨ r.Type' = "CNAME" ∨ r.Type' = "MX")
    (hq : typeMap r.Type' = some qtype)
    (hqn : qn = r.Name ++ "." ++ dName ++ ".")
    (hpre : ∀ r' ∈ pre, recordSkips dName qtype qn r') :
    handleLocal ⟨servers, [⟨dName, pre ++ r :: post⟩], ct⟩ qn qtype =
      (synthesize qn r, false) ∧
    ∃ rr, synthesize qn r = [rr] ∧ rr.Hdr.Ttl = r.TTL ∧ rr.Hdr.Name = qn ∧
      rr.Hdr.Rrtype = qtype := by
  have hnm : recordNameMatch dName r qn = true := by
    rw [hqn]; exact recordNameMatch_exact dName r
  have hdom : goContains qn dName = true := by
    rw [hqn]; exact goContains_mid r.Name dName
  have hsup : (typeMapRev qtype).isSome = true := by
    rcases hty with h | h | h | h <;>
      (rw [h] at hq; injection hq with e; subst e; decide)
  have hmatch : matchQuestion ⟨servers, [⟨dName, pre ++ r :: post⟩], ct⟩ qn qtype =
      some r := by
    apply matchQuestion_single dName qn servers ct _ qtype r hdom hsup
    rw [matchRecords_skip dName qtype qn pre (r :: post) hpre]
    exact matchRecords_head_exact dName qtype qn r post hnm hq
  refine ⟨?_, ?_⟩
  · unfold handleLocal
    rw [hmatch]
  · rcases hty with h | h | h | h
    · rw [h] at hq; injection hq with e; subst e
      exact ⟨⟨⟨qn, 1, 1, r.TTL⟩, .A (goParseIP r.Value)⟩,
        by rw [synthesize, h]; rfl, rfl, rfl, rfl⟩
    · rw [h] at hq; injection hq with e; subst e
      exact ⟨⟨⟨qn, 28, 1, r.TTL⟩, .AAAA (goParseIP r.Value)⟩,
        by rw [synthesize, h]; rfl, rfl, rfl, rfl⟩
    · rw [h] at hq; injection hq with e; subst e
      exact ⟨⟨⟨qn, 5, 1, r.TTL⟩, .CNAME (goTrimSuffixDot r.Value ++ ".")⟩,
        by rw [synthesize, h]; rfl, rfl, rfl, rfl⟩
    · rw [h] at hq; injection hq with e; subst e
      exact ⟨⟨⟨qn, 15, 1, r.TTL⟩, .MX r.Preference r.Value⟩,
        by rw [synthesize, h]; rfl, rfl, rfl, rfl⟩

/-- Witness for C5 (amended), at the spec §8 scenario: domain
`example.com`, record `{www A 1.2.3.4 ttl 300}`, query
`www.example.com. A` — a single A record, address 1.2.3.4, TTL 300. -/
theorem C5_exact_match_witness :
    handleLocal ⟨["s1", "s2"], [⟨"example.com", [recWWW]⟩], 0⟩ "www.example.com." 1 =
      ([⟨⟨"www.example.com.", 1, 1, 300⟩, .A (some (.v4 1 2 3 4))⟩], false) :=
  ((C5_exact_match_synthesis "example.com" "www.example.com." ["s1", "s2"] 0
      [] [] recWWW 1 (Or.inl rfl) (by decide) (by decide) (by simp)).1).trans
    (by decide)

/-! ## Helper lemmas: wildcard matching -/

/-- A two-piece split reconstructs the record name around the single
wildcard token. -/
theorem goSplitStar_pair {s : String} {p0 p1 : String}
    (h : goSplitStar s = [p0, p1]) : s.data = p0.data ++ '*' :: p1.data := by
  unfold goSplitStar at h
  rcases hsp : splitOnChar '*' s.data with _ | ⟨a, b⟩
  · exact absurd hsp (splitOnChar_ne_nil '*' s.data)
  · rw [hsp] at h
    cases b with
    | nil => simp at h
    | cons a2 b2 =>
      cases b2 with
      | cons x y => simp at h
      | nil =>
        simp only [List.map_cons, List.map_nil, List.cons.injEq, and_true] at h
        obtain ⟨h1, h2⟩ := h
        have := splitOnChar_eq_pair '*' s.data a a2 hsp
        rw [this, ← h1, ← h2]

/-- Claim C3: for a record whose name contains a single wildcard token,
the name-match rule holds if and only if the query name contains the
suffix assembled from the portion after the token, a dot, the domain name
and a trailing dot. -/
theorem C3_wildcard_suffix_iff (dName : String) (r : Record) (qn : String)
    (h2 : (goSplitStar r.Name).length = 2) :
    (recordNameMatch dName r qn = true ↔
      goContains qn ((goSplitStar r.Name).getD 1 "" ++ "." ++ dName ++ ".") = true) := by
  obtain ⟨p0, p1, hsp⟩ := List.length_eq_two.mp h2
  have hrec : r.Name.data = p0.data ++ '*' :: p1.data := goSplitStar_pair hsp
  have hdot : ("." : String).data = ['.'] := rfl
  have hstar : goContains r.Name "*" = true := by
    unfold goContains
    rw [containsSeq_iff]
    exact ⟨p0.data, p1.data, by rw [hrec]; simp⟩
  have hgetD : (goSplitStar r.Name).getD 1 "" = p1 := by rw [hsp]; rfl
  have hqNameContains :
      goContains (r.Name ++ "." ++ dName ++ ".") (p1 ++ "." ++ dName ++ ".") = true := by
    unfold goContains
    rw [containsSeq_iff]
    refine ⟨p0.data ++ ['*'], [], ?_⟩
    simp [String.data_append, hdot, hrec, List.append_assoc]
  rw [hgetD]
  by_cases hqn : r.Name ++ "." ++ dName ++ "." = qn
  · have hL : recordNameMatch dName r qn = true := by
      simp [recordNameMatch, hqn]
    have hR : goContains qn (p1 ++ "." ++ dName ++ ".") = true := by
      rw [← hqn]
      exact hqNameContains
    simp [hL, hR]
  · have hstep : recordNameMatch dName r qn =
        goContains qn ((goSplitStar r.Name).getD 1 "" ++ "." ++ dName ++ ".") := by
      simp [recordNameMatch, hqn, hstar]
    rw [hstep, hgetD]

/-- Witness for C3 at the spec §8 wildcard scenario: record `{* A}` under
`example.com`; `foo.example.com.` shares the suffix `.example.com.` and
name-matches. -/
theorem C3_wildcard_witness :
    recordNameMatch "example.com" recStar "foo.example.com." = true :=
  (C3_wildcard_suffix_iff "example.com" recStar "foo.example.com." (by decide)).mpr
    (by decide)
